import Mathlib

/-!
# Verification of `fmd` (find Markdown files by metadata)

Shallow embedding of the metadata-extraction and filter-evaluation core of
`src/main.rs`.  Strings are modelled as lists of characters (`Str`); Rust's
Unicode case folding and whitespace classes are modelled on their ASCII
fragments, which is exact for `eq_ignore_ascii_case` and for all inputs used
in concrete evaluations below.  Files are modelled as their list of lines
(as produced by `BufRead::lines`) or as a single character list where the
source works on a whole string.
-/

/-- A Rust string slice, modelled as its list of characters. -/
abbrev Str := List Char

/-- Embed a Lean string literal as a `Str`. -/
def str (s : String) : Str := s.toList

/-- ASCII fragment of Rust's `char::is_whitespace`. -/
def isWsChar (c : Char) : Bool :=
  c = ' ' || c = '\t' || c = '\n' || c = '\x0d' || c = '\x0b' || c = '\x0c'

/-- Model of Rust `str::trim_start`. -/
def trimStart (s : Str) : Str := s.dropWhile isWsChar

/-- Model of Rust `str::trim` (both ends). -/
def trimStr (s : Str) : Str :=
  ((s.dropWhile isWsChar).reverse.dropWhile isWsChar).reverse

/-- ASCII lower-casing of one character (the fragment of Rust's
`to_lowercase`/`to_ascii_lowercase` exercised by the embedding). -/
def asciiToLower (c : Char) : Char :=
  if 65 ≤ c.toNat ∧ c.toNat ≤ 90 then Char.ofNat (c.toNat + 32) else c

/-- Model of Rust `str::to_lowercase` (ASCII fragment). -/
def toLowerStr (s : Str) : Str := s.map asciiToLower

/-- Model of Rust `str::eq_ignore_ascii_case`. -/
def eqIgnoreAsciiCase (a b : Str) : Bool := toLowerStr a = toLowerStr b

/-- Does `s` start with `pat`? (model of Rust `str::starts_with`). -/
def startsWithStr : Str → Str → Bool
  | _, [] => true
  | [], _ :: _ => false
  | c :: cs, p :: ps => c = p && startsWithStr cs ps

/-- Model of Rust `str::contains` (contiguous substring). -/
def containsSub : Str → Str → Bool
  | [], needle => needle.isEmpty
  | c :: cs, needle => startsWithStr (c :: cs) needle || containsSub cs needle

/-- Case-insensitive substring containment, the matching notion used
throughout `fmd` for titles, authors, fields and YAML tags. -/
def ciContainsSub (hay needle : Str) : Bool :=
  containsSub (toLowerStr hay) (toLowerStr needle)

/-- Split a character list at every occurrence of `sep` (the pieces do not
contain `sep`; `n` separators yield `n+1` pieces). -/
def splitOnChar (sep : Char) : Str → List Str
  | [] => [[]]
  | c :: rest =>
    match splitOnChar sep rest with
    | [] => [[]]
    | p :: ps => if c = sep then [] :: p :: ps else (c :: p) :: ps

/-- Drop one trailing carriage return (Rust `lines()` strips `\r\n`). -/
def stripCr (s : Str) : Str :=
  match s.getLast? with
  | some c => if c = '\x0d' then s.dropLast else s
  | none => s

/-- Model of Rust `str::lines`: split at `\n` or `\r\n`; a final line
ending is optional and produces no trailing empty line. -/
def rustLines (s : Str) : List Str :=
  let ps := splitOnChar '\n' s
  let body := ps.dropLast.map stripCr
  match ps.getLast? with
  | none => []
  | some lst => if lst = [] then body else body ++ [lst]

/-- Model of Rust `str::split_once(':')` / `str::find(':')`: the part
before the first colon and the part after it. -/
def splitAtColon : Str → Option (Str × Str)
  | [] => none
  | c :: rest =>
    if c = ':' then some ([], rest)
    else (splitAtColon rest).map (fun kv => (c :: kv.1, kv.2))

example : trimStr (str "  --- ") = str "---" := by rfl
example : rustLines (str "a\r\nb\nc") = [str "a", str "b", str "c"] := by rfl
example : rustLines (str "a\n") = [str "a"] := by rfl
example : rustLines (str "") = [] := by rfl
example : splitAtColon (str "key: val") = some (str "key", str " val") := by rfl
example : ciContainsSub (str "The DRAFT note") (str "draft") = true := by rfl
example : eqIgnoreAsciiCase (str "Author") (str "aUTHOR") = true := by decide

/-! ## Path ordering

Rust sorts result paths with `Vec::sort` on `PathBuf`; we model path order
as byte-lexicographic order on the path string. -/

/-- Lexicographic order on character lists (by code point). -/
def lexLe : Str → Str → Bool
  | [], _ => true
  | _ :: _, [] => false
  | a :: as, b :: bs =>
    if a.toNat < b.toNat then true
    else if b.toNat < a.toNat then false
    else lexLe as bs

/-- `lexLe` as a proposition, for use with `List.insertionSort`. -/
def lexLeP (a b : Str) : Prop := lexLe a b = true

instance : DecidableRel lexLeP := fun a b => instDecidableEqBool (lexLe a b) true

theorem lexLe_total : ∀ a b : Str, lexLeP a b ∨ lexLeP b a := by
  intro a
  induction a with
  | nil => intro b; exact Or.inl rfl
  | cons x xs ih =>
    intro b
    cases b with
    | nil => exact Or.inr rfl
    | cons y ys =>
      by_cases h1 : x.toNat < y.toNat
      · left; simp [lexLeP, lexLe, h1]
      · by_cases h2 : y.toNat < x.toNat
        · right; simp [lexLeP, lexLe, h1, h2]
        · have := ih ys
          rcases this with h | h
          · left; simpa [lexLeP, lexLe, h1, h2] using h
          · right; simpa [lexLeP, lexLe, h1, h2, Nat.lt_asymm] using h

theorem lexLe_trans : ∀ a b c : Str, lexLeP a b → lexLeP b c → lexLeP a c := by
  intro a
  induction a with
  | nil => intro b c _ _; exact rfl
  | cons x xs ih =>
    intro b c hab hbc
    cases b with
    | nil => simp [lexLeP, lexLe] at hab
    | cons y ys =>
      cases c with
      | nil => simp [lexLeP, lexLe] at hbc
      | cons z zs =>
        simp only [lexLeP, lexLe] at hab hbc ⊢
        by_cases hxy : x.toNat < y.toNat
        · by_cases hyz : y.toNat < z.toNat
          · have : x.toNat < z.toNat := Nat.lt_trans hxy hyz
            simp [this]
          · by_cases hzy : z.toNat < y.toNat
            · simp [hyz, hzy] at hbc
            · have : y.toNat = z.toNat := Nat.le_antisymm (Nat.le_of_not_lt hzy) (Nat.le_of_not_lt hyz)
              have hxz : x.toNat < z.toNat := this ▸ hxy
              simp [hxz]
        · by_cases hyx : y.toNat < x.toNat
          · simp [hxy, hyx] at hab
          · have hxyeq : x.toNat = y.toNat := Nat.le_antisymm (Nat.le_of_not_lt hyx) (Nat.le_of_not_lt hxy)
            by_cases hyz : y.toNat < z.toNat
            · have : x.toNat < z.toNat := hxyeq ▸ hyz
              simp [this]
            · by_cases hzy : z.toNat < y.toNat
              · simp [hyz, hzy] at hbc
              · have hyzeq : y.toNat = z.toNat := Nat.le_antisymm (Nat.le_of_not_lt hzy) (Nat.le_of_not_lt hyz)
                have h1 : ¬ x.toNat < z.toNat := by omega
                have h2 : ¬ z.toNat < x.toNat := by omega
                simp only [hxy, hyx, if_neg, ite_false] at hab
                simp only [hyz, hzy, if_neg, ite_false] at hbc
                simp only [h1, h2, if_neg, ite_false]
                exact ih ys zs hab hbc

instance : IsTotal Str lexLeP := ⟨lexLe_total⟩

instance : IsTrans Str lexLeP := ⟨fun a b c => lexLe_trans a b c⟩

/-- Sort a list of path strings (model of `files.sort()`). -/
def sortPaths (l : List Str) : List Str := List.insertionSort lexLeP l

/-! ## Calendar dates

`chrono::NaiveDate` values are encoded as `y * 10000 + m * 100 + d`, which
is order-isomorphic to chronological order for valid dates. -/

/-- Gregorian leap year. -/
def isLeapYear (y : Nat) : Bool := (y % 4 = 0 && y % 100 ≠ 0) || y % 400 = 0

/-- Days in a month of the proleptic Gregorian calendar. -/
def daysInMonth (y m : Nat) : Nat :=
  if m = 2 then (if isLeapYear y then 29 else 28)
  else if m = 4 || m = 6 || m = 9 || m = 11 then 30 else 31

/-- Parse a non-empty all-digit string as a natural number. -/
def digitsToNat : Str → Option Nat
  | [] => none
  | cs =>
    if cs.all (fun c => c.isDigit) then
      some (cs.foldl (fun acc c => acc * 10 + (c.toNat - 48)) 0)
    else none

/-- Model of `NaiveDate::parse_from_str(s, "%Y-%m-%d")`: three dash-separated
digit groups forming a valid calendar date (negative years not modelled).
The whole input must be consumed; a failure yields `none`. -/
def parseDate (s : Str) : Option Nat :=
  match splitOnChar '-' s with
  | [ys, ms, ds] =>
    match digitsToNat ys, digitsToNat ms, digitsToNat ds with
    | some y, some m, some d =>
      if 1 ≤ m ∧ m ≤ 12 ∧ 1 ≤ d ∧ d ≤ daysInMonth y m then
        some (y * 10000 + m * 100 + d)
      else none
    | _, _, _ => none
  | _ => none

example : parseDate (str "2024-01-15") = some 20240115 := by rfl
example : parseDate (str "2024-13-01") = none := by rfl
example : parseDate (str "not-a-date") = none := by rfl

/-! ## YAML values and frontmatter -/

/-- Model of `serde_yaml::Value`.  A number is carried as its decimal
rendering (`n.to_string()`), which is all the source ever uses of it. -/
inductive YamlValue where
  | strV : Str → YamlValue
  | numV : Str → YamlValue
  | boolV : Bool → YamlValue
  | seqV : List YamlValue → YamlValue
  | nullV : YamlValue
  | mappingV : List (YamlValue × YamlValue) → YamlValue
  | taggedV : Str → YamlValue → YamlValue

mutual

/-- Model of `yaml_value_contains` (src/main.rs): case-insensitive pattern
match against string/number/bool scalars and recursively against sequences;
all other node kinds (null, mapping, tagged) never match. -/
def yaml_value_contains : YamlValue → Str → Bool
  | .strV s, pl => containsSub (toLowerStr s) pl
  | .numV n, pl => containsSub (toLowerStr n) pl
  | .boolV b, pl => containsSub (toLowerStr (if b then str "true" else str "false")) pl
  | .seqV xs, pl => yamlSeqContains xs pl
  | .nullV, _ => false
  | .mappingV _, _ => false
  | .taggedV _ _, _ => false

/-- `seq.iter().any(|v| yaml_value_contains(v, pattern_lower))`. -/
def yamlSeqContains : List YamlValue → Str → Bool
  | [], _ => false
  | v :: vs, pl => yaml_value_contains v pl || yamlSeqContains vs pl

end

/-- Model of `parse_date_from_yaml_value`: only string values parse. -/
def parse_date_from_yaml_value : YamlValue → Option Nat
  | .strV s => parseDate s
  | _ => none

/-- Model of `TagValue`: YAML's single-or-list tag convention. -/
inductive TagValue where
  | Single : Str → TagValue
  | Array : List Str → TagValue

/-- Model of `TagValue::contains_tag`: case-insensitive substring match
against the single string, or against any element of the array. -/
def TagValue.contains_tag (tv : TagValue) (pattern : Str) : Bool :=
  let pattern_lower := toLowerStr pattern
  match tv with
  | .Single tag => containsSub (toLowerStr tag) pattern_lower
  | .Array tags => tags.any (fun tag => containsSub (toLowerStr tag) pattern_lower)

/-- Model of the `Frontmatter` struct: `title`, `author`, `tags`, and the
flattened `extra` map (modelled as an association list with unique keys, as
produced by `HashMap`). -/
structure Frontmatter where
  title : Option Str
  author : Option Str
  tags : Option TagValue
  extra : List (Str × YamlValue)

/-- Model of `HashMap::get` on the `extra` map: first binding of the key
under exact (case-sensitive) string equality. -/
def lookupExtra : List (Str × YamlValue) → Str → Option YamlValue
  | [], _ => none
  | (k, v) :: rest, key => if k = key then some v else lookupExtra rest key

/-! ## Metadata view -/

/-- Per-file working data: optional parsed frontmatter plus the raw text
that was read (full file or bounded prefix). -/
structure Metadata where
  frontmatter : Option Frontmatter
  raw_content : Str

/-- Regex class `[[:word:]]` of the Rust `regex` crate: ASCII alphanumeric
or underscore. -/
def isWordChar (c : Char) : Bool := c.isAlphanum || c = '_'

/-- After the (case-insensitive) pattern characters, the next character
must be a non-word character or the end of input: `([^[:word:]]|$)`. -/
def tagPatThenBoundary : Str → Str → Bool
  | [], rest =>
    match rest with
    | [] => true
    | c :: _ => !isWordChar c
  | _ :: _, [] => false
  | p :: ps, c :: cs => asciiToLower c = asciiToLower p && tagPatThenBoundary ps cs

/-- Scan of the compiled tag regex
`(^|[^[:word:]])#<escaped pattern>([^[:word:]]|$)` (case-insensitive):
`leftOk` records whether the current position is the start of the input or
is preceded by a non-word character. -/
def tagRegexScan (pat : Str) : Str → Bool → Bool
  | [], _ => false
  | c :: cs, leftOk =>
    (leftOk && (if c = '#' then tagPatThenBoundary pat cs else false))
      || tagRegexScan pat cs (!isWordChar c)

/-- Model of `Regex::is_match` for the tag regex built in
`CompiledFilters::from_args`. -/
def tagRegexMatch (pat : Str) (s : Str) : Bool := tagRegexScan pat s true

example : tagRegexMatch (str "rust") (str "a note #rust here") = true := by rfl
example : tagRegexMatch (str "rust") (str "a note #rusty here") = false := by rfl
example : tagRegexMatch (str "rust") (str "#RUST") = true := by rfl
example : tagRegexMatch (str "rust") (str "xx#rust") = false := by rfl

/-- Model of `Metadata::has_tag`: YAML frontmatter tags checked first, then
the inline tag regex over the raw content.  `pat` is the tag pattern after
stripping a leading `#` (the stored lowercased pattern and the compiled
regex are both determined by it). -/
def Metadata.has_tag (m : Metadata) (pat : Str) : Bool :=
  (match m.frontmatter with
   | some fm =>
     match fm.tags with
     | some tags => tags.contains_tag (toLowerStr pat)
     | none => false
   | none => false)
  || tagRegexMatch pat m.raw_content

/-- Count the leading `#` characters of a line. -/
def countHashes : Str → Nat
  | [] => 0
  | c :: cs => if c = '#' then countHashes cs + 1 else 0

/-- Model of `Metadata::has_title`: frontmatter title, or any markdown
heading line (1–6 `#` after leading whitespace, followed by a space) whose
remainder contains the pattern case-insensitively. -/
def Metadata.has_title (m : Metadata) (pattern_lower : Str) : Bool :=
  (match m.frontmatter with
   | some fm =>
     match fm.title with
     | some title => containsSub (toLowerStr title) pattern_lower
     | none => false
   | none => false)
  || (rustLines m.raw_content).any (fun line =>
      let trimmed := trimStart line
      let hashes := countHashes trimmed
      if 1 ≤ hashes ∧ hashes ≤ 6 then
        let after := trimmed.drop hashes
        (match after with
         | c :: _ => c = ' '
         | [] => false)
        && containsSub (toLowerStr after) pattern_lower
      else false)

/-- Model of `Metadata::has_author`: frontmatter author, or any inline
line whose pre-colon key equals `author` ignoring ASCII case and whose
value part contains the pattern case-insensitively. -/
def Metadata.has_author (m : Metadata) (pattern_lower : Str) : Bool :=
  (match m.frontmatter with
   | some fm =>
     match fm.author with
     | some author => containsSub (toLowerStr author) pattern_lower
     | none => false
   | none => false)
  || (rustLines m.raw_content).any (fun line =>
      let trimmed := trimStart line
      match splitAtColon trimmed with
      | some kv => eqIgnoreAsciiCase kv.1 (str "author")
          && containsSub (toLowerStr kv.2) pattern_lower
      | none => false)

/-- Structured branch of `Metadata::has_field`: look `field_name` up in the
frontmatter `extra` map (exact, case-sensitive key equality) and test the
YAML value. -/
def structuredFieldMatch (m : Metadata) (field_name pattern_lower : Str) : Bool :=
  match m.frontmatter with
  | some fm =>
    match lookupExtra fm.extra field_name with
    | some v => yaml_value_contains v pattern_lower
    | none => false
  | none => false

/-- Inline branch of `Metadata::has_field`: scan every line of the raw
content for `key: value` with the key equal to `field_name` ignoring ASCII
case, matching the pattern against the value part only. -/
def inlineFieldMatch (m : Metadata) (field_name pattern_lower : Str) : Bool :=
  (rustLines m.raw_content).any (fun line =>
    let trimmed := trimStart line
    match splitAtColon trimmed with
    | some kv => eqIgnoreAsciiCase kv.1 field_name
        && containsSub (toLowerStr kv.2) pattern_lower
    | none => false)

/-- Model of `Metadata::has_field`: structured check first, then the
inline `key: value` fallback. -/
def Metadata.has_field (m : Metadata) (field_name pattern_lower : Str) : Bool :=
  structuredFieldMatch m field_name pattern_lower
    || inlineFieldMatch m field_name pattern_lower

/-- The four field names scanned for dates. -/
def date_fields : List Str := [str "date", str "created", str "updated", str "modified"]

/-- Remove consecutive duplicates (model of `Vec::dedup`). -/
def dedupConsec : List Nat → List Nat
  | [] => []
  | [a] => [a]
  | a :: b :: rest =>
    if a = b then dedupConsec (b :: rest) else a :: dedupConsec (b :: rest)

/-- Model of `Metadata::extract_dates`: dates from the frontmatter fields
`date`/`created`/`updated`/`modified`, or — only when no frontmatter
exists — from inline `key: value` lines with those keys (keys compared
ignoring ASCII case, key and value trimmed); sorted and deduplicated. -/
def Metadata.extract_dates (m : Metadata) : List Nat :=
  let dates :=
    match m.frontmatter with
    | some fm =>
      date_fields.filterMap (fun f => (lookupExtra fm.extra f).bind parse_date_from_yaml_value)
    | none =>
      (rustLines m.raw_content).filterMap (fun line =>
        let trimmed := trimStart line
        match splitAtColon trimmed with
        | some kv =>
          let key := trimStr kv.1
          if date_fields.any (fun f => eqIgnoreAsciiCase key f) then
            parseDate (trimStr kv.2)
          else none
        | none => none)
  dedupConsec (List.insertionSort (· ≤ ·) dates)

/-- Model of `Metadata::matches_date_filters`: false when no dates were
extracted; otherwise true when any extracted date satisfies both optional
inclusive bounds. -/
def Metadata.matches_date_filters (m : Metadata) (date_after date_before : Option Nat) : Bool :=
  let dates := m.extract_dates
  if dates.isEmpty then false
  else
    dates.any (fun date =>
      (match date_after with
       | none => true
       | some after => after ≤ date)
      && (match date_before with
          | none => true
          | some before => date ≤ before))

/-! ## Bounded content reader -/

/-- `MAX_FRONTMATTER_LINES` from src/main.rs. -/
def MAX_FRONTMATTER_LINES : Nat := 1000

/-- The line loop of `read_file_content` in bounded mode, over the file's
lines (as yielded by `BufReader::lines`).  State: lines consumed so far
(`line_count`), `in_frontmatter`, `frontmatter_ended`.  Each line is pushed
and counted; exceeding `MAX_FRONTMATTER_LINES` while inside frontmatter is
the FrontmatterTooLarge error (`none`); the loop breaks once at least
`head_lines` lines are consumed and the reader is not inside an
unterminated frontmatter block. -/
def readLinesLoop (head_lines : Nat) :
    List Str → Nat → Bool → Bool → Option (List Str)
  | [], _, _, _ => some []
  | line :: rest, line_count, in_fm, fm_ended =>
    let trimmed := trimStr line
    let in_fm' :=
      if line_count = 0 ∧ trimmed = str "---" then true
      else if in_fm = true ∧ trimmed = str "---" then false
      else in_fm
    let fm_ended' :=
      if line_count = 0 ∧ trimmed = str "---" then fm_ended
      else if in_fm = true ∧ trimmed = str "---" then true
      else fm_ended
    let line_count' := line_count + 1
    if in_fm' = true ∧ line_count' > MAX_FRONTMATTER_LINES then none
    else if line_count' ≥ head_lines ∧ (in_fm' = false ∨ fm_ended' = true) then
      some [line]
    else (readLinesLoop head_lines rest line_count' in_fm' fm_ended').map (line :: ·)

/-- Model of `read_file_content`.  A file is modelled as its list of lines;
the result is the list of lines kept (the source joins them with `"\n"`).
`none` models the FrontmatterTooLarge error.  In full-text mode the whole
file is returned. -/
def read_file_content (fileLines : List Str) (head_lines : Nat) (full_text : Bool) :
    Option (List Str) :=
  if full_text then some fileLines
  else readLinesLoop head_lines fileLines 0 false false

example : read_file_content [str "---", str "a: 1", str "---", str "x", str "y"] 2 false
    = some [str "---", str "a: 1", str "---"] := by rfl
example : read_file_content [str "t", str "u", str "v"] 2 false
    = some [str "t", str "u"] := by rfl

/-! ## Frontmatter parser -/

/-- Join lines with `"\n"` (model of `Vec::join("\n")`). -/
def joinNl (ls : List Str) : Str := List.intercalate (str "\n") ls

/-- A line that is not a `---` delimiter (after trimming). -/
def notDelimLine (l : Str) : Bool := ¬ trimStr l = str "---"

/-- Model of `extract_frontmatter`, parametrised by the external YAML
deserializer `parseYaml` (`serde_yaml::from_str::<Frontmatter>`).  The
second component records whether a warning was printed to stderr: the
source `eprintln!`s unconditionally on a deserialization failure.  Returns
`none` when the first line does not trim to `---`, when the collected
block is empty, or when deserialization fails. -/
def extract_frontmatter (parseYaml : Str → Except Str Frontmatter) (content : Str) :
    Option Frontmatter × Bool :=
  match rustLines content with
  | [] => (none, false)
  | first :: rest =>
    if trimStr first = str "---" then
      let yaml_lines := rest.takeWhile notDelimLine
      if yaml_lines.isEmpty then (none, false)
      else
        match parseYaml (joinNl yaml_lines) with
        | .ok fm => (some fm, false)
        | .error _ => (none, true)
    else (none, false)

/-- Model of `Metadata::from_file` after the content has been read:
the `_verbose` flag is accepted and ignored by the source.  Returns the
metadata together with the warning-emitted flag. -/
def Metadata.from_content (parseYaml : Str → Except Str Frontmatter)
    (content : Str) (_verbose : Bool) : Metadata × Bool :=
  let r := extract_frontmatter parseYaml content
  (⟨r.1, content⟩, r.2)

/-! ## Filter compiler -/

/-- The user-supplied filter arguments relevant to matching (the `Args`
struct minus I/O and traversal options).  A filename pattern is carried as
the match function of its compiled regex: regex compilation itself is
external and is not modelled. -/
structure Args where
  tags : List Str
  titles : List Str
  authors : List Str
  names : List (Str → Bool)
  fields : List Str
  date_after : Option Str
  date_before : Option Str
  verbose : Bool

/-- Fatal configuration errors of `CompiledFilters::from_args` (each
carries the offending input, as the source messages do). -/
inductive FilterError where
  | fieldNoColon : Str → FilterError
  | fieldBothEmpty : Str → FilterError
  | fieldNameEmpty : Str → FilterError
  | fieldPatternEmpty : Str → FilterError
  | invalidDateAfter : Str → FilterError
  | invalidDateBefore : Str → FilterError
deriving DecidableEq

/-- Is the error one of the field-spec format errors? -/
def FilterError.isFieldError : FilterError → Bool
  | .fieldNoColon _ => true
  | .fieldBothEmpty _ => true
  | .fieldNameEmpty _ => true
  | .fieldPatternEmpty _ => true
  | _ => false

/-- One iteration of the field-spec loop in `CompiledFilters::from_args`:
split on the first `:`; reject a missing colon, both sides trimming to
empty, an empty field name, or an empty pattern — in that order; otherwise
keep the trimmed field name (original case) and the lowercased trimmed
pattern. -/
def parse_field_spec (field_spec : Str) : Except FilterError (Str × Str) :=
  match splitAtColon field_spec with
  | none => .error (.fieldNoColon field_spec)
  | some (field, pattern) =>
    let field_trimmed := trimStr field
    let pattern_trimmed := trimStr pattern
    if field_trimmed = [] ∧ pattern_trimmed = [] then .error (.fieldBothEmpty field_spec)
    else if field_trimmed = [] then .error (.fieldNameEmpty field_spec)
    else if pattern_trimmed = [] then .error (.fieldPatternEmpty field_spec)
    else .ok (field_trimmed, toLowerStr pattern_trimmed)

/-- The whole field-spec loop: first error wins. -/
def parse_field_specs : List Str → Except FilterError (List (Str × Str))
  | [] => .ok []
  | s :: rest =>
    match parse_field_spec s with
    | .error e => .error e
    | .ok fp => (parse_field_specs rest).map (fp :: ·)

/-- A field spec the source rejects: no colon, or either side of the first
colon trims to empty. -/
def badFieldSpec (s : Str) : Bool :=
  match splitAtColon s with
  | none => true
  | some (f, p) => trimStr f = [] || trimStr p = []

/-- Parse an optional date argument; a present but malformed date is the
fatal InvalidDateFormat error built by `mk`. -/
def parse_date_arg (arg : Option Str) (mk : Str → FilterError) :
    Except FilterError (Option Nat) :=
  match arg with
  | none => .ok none
  | some s =>
    match parseDate s with
    | some d => .ok (some d)
    | none => .error (mk s)

/-- Model of `CompiledFilters`.  Tag patterns are kept as the pattern after
stripping an optional leading `#` (the stored lowercase string and the
compiled regex are both functions of it); name patterns are compiled regex
match functions. -/
structure CompiledFilters where
  tag_patterns : List Str
  title_patterns : List Str
  author_patterns : List Str
  name_patterns : List (Str → Bool)
  field_patterns : List (Str × Str)
  date_after : Option Nat
  date_before : Option Nat

/-- Strip an optional leading `#` from a tag spec. -/
def stripHash : Str → Str
  | '#' :: rest => rest
  | s => s

/-- Model of `CompiledFilters::from_args`.  Tag regexes are built from
escaped patterns and always compile; name regexes are pre-compiled in
`Args`; field specs and then date arguments are validated in source
order. -/
def CompiledFilters.from_args (args : Args) : Except FilterError CompiledFilters :=
  let tag_patterns := args.tags.map stripHash
  let title_patterns := args.titles.map toLowerStr
  let author_patterns := args.authors.map toLowerStr
  let name_patterns := args.names
  match parse_field_specs args.fields with
  | .error e => .error e
  | .ok field_patterns =>
    match parse_date_arg args.date_after FilterError.invalidDateAfter with
    | .error e => .error e
    | .ok date_after =>
      match parse_date_arg args.date_before FilterError.invalidDateBefore with
      | .error e => .error e
      | .ok date_before =>
        .ok ⟨tag_patterns, title_patterns, author_patterns, name_patterns,
             field_patterns, date_after, date_before⟩

/-! ## Filter evaluator -/

/-- Model of `Path::file_name`: the final path component, `none` for an
empty path, a root path, or a path ending in `..`. -/
def fileName (p : Str) : Option Str :=
  let comps := (splitOnChar '/' p).filter (fun c => ¬ c = [] ∧ ¬ c = str ".")
  match comps.getLast? with
  | none => none
  | some c => if c = str ".." then none else some c

/-- Model of `matches_filename`: apply the compiled name regex to the
path's final component; a path without one never matches. -/
def matches_filename (p : Str) (regex : Str → Bool) : Bool :=
  match fileName p with
  | none => false
  | some name => regex name

/-- Model of `should_include_file_by_content`: each present content filter
type must be satisfied by at least one of its patterns, checked in source
order (tags, titles, authors, fields, dates). -/
def should_include_file_by_content (metadata : Metadata) (filters : CompiledFilters) : Bool :=
  if !filters.tag_patterns.isEmpty
      && !filters.tag_patterns.any (fun p => metadata.has_tag p) then false
  else if !filters.title_patterns.isEmpty
      && !filters.title_patterns.any (fun p => metadata.has_title p) then false
  else if !filters.author_patterns.isEmpty
      && !filters.author_patterns.any (fun p => metadata.has_author p) then false
  else if !filters.field_patterns.isEmpty
      && !filters.field_patterns.any (fun fp => metadata.has_field fp.1 fp.2) then false
  else if (filters.date_after.isSome || filters.date_before.isSome)
      && !metadata.matches_date_filters filters.date_after filters.date_before then false
  else true

/-- Observable side effects of one run of `find_matching_files`, in
program order: `traverse` marks the directory enumeration performed by
`enumerate_files`; `readF p` marks the file-content read (and `Metadata`
construction) of `Metadata::from_file` for path `p`. -/
inductive Event where
  | traverse : Event
  | readF : Str → Event
deriving DecidableEq

/-- The no-filter test at the top of `find_matching_files`. -/
def noFilters (args : Args) : Bool :=
  args.tags.isEmpty && args.titles.isEmpty && args.authors.isEmpty
    && args.names.isEmpty && args.fields.isEmpty
    && args.date_after.isNone && args.date_before.isNone

/-- Model of `find_matching_files` downstream of argument parsing.
`candidates` is the output of `enumerate_files` (which the source calls
first, before looking at any filter — hence the leading `Event.traverse`);
`readFile` is the file system as seen through `read_file_content` for the
run's mode (`none` models a read failure, which drops the file); and
`parseYaml` is the external YAML deserializer.  Returns the sorted matches
(or the fatal filter-compilation error) together with the event trace. -/
def find_matching_files (candidates : List Str) (readFile : Str → Option Str)
    (parseYaml : Str → Except Str Frontmatter) (args : Args) :
    Except FilterError (List Str) × List Event :=
  if noFilters args then
    (.ok (sortPaths candidates), [Event.traverse])
  else
    match CompiledFilters.from_args args with
    | .error e => (.error e, [Event.traverse])
    | .ok filters =>
      let files :=
        if !filters.name_patterns.isEmpty then
          candidates.filter (fun p =>
            filters.name_patterns.any (fun regex => matches_filename p regex))
        else candidates
      let matching := files.filterMap (fun p =>
        match readFile p with
        | none => none
        | some content =>
          if should_include_file_by_content
              (Metadata.from_content parseYaml content args.verbose).1 filters
          then some p else none)
      (.ok (sortPaths matching), Event.traverse :: files.map Event.readF)

/-! ## Concrete fixtures used by individual claims -/

/-- Frontmatter with `status` mapped to YAML `null`. -/
def fmC9 : Frontmatter := ⟨none, none, none, [(str "status", YamlValue.nullV)]⟩

/-- Metadata of a file whose frontmatter is `status: null` (the raw
content is the bounded read of the file, so it contains the frontmatter
block's own lines). -/
def mC9 : Metadata := ⟨some fmC9, str "---\nstatus: null\n---\n# Title"⟩

/-- Frontmatter with `status` mapped to the string `draft`. -/
def fmC10 : Frontmatter := ⟨none, none, none, [(str "status", YamlValue.strV (str "draft"))]⟩

/-- Metadata of a file whose frontmatter is `status: draft`. -/
def mC10 : Metadata := ⟨some fmC10, str "---\nstatus: draft\n---"⟩

/-! ## Claim theorems -/

/-- C8: for every `TagValue` and pattern `p`, `contains_tag p` on an
`Array ts` is true iff some element of `ts` case-insensitively contains
`p` as a substring, and on a `Single t` iff `t` does. -/
theorem C8_contains_tag_iff (p : Str) :
    (∀ ts, (TagValue.Array ts).contains_tag p = true ↔
      ∃ t ∈ ts, ciContainsSub t p = true) ∧
    (∀ t, (TagValue.Single t).contains_tag p = true ↔ ciContainsSub t p = true) := by
  constructor
  · intro ts
    simp [TagValue.contains_tag, ciContainsSub, List.any_eq_true]
  · intro t
    simp [TagValue.contains_tag, ciContainsSub]

/-- C3: `matches_date_filters` is false whenever `extract_dates` is empty,
and otherwise true exactly when some extracted date satisfies both
optional inclusive bounds. -/
theorem C3_matches_date_filters_iff (m : Metadata) (da db : Option Nat) :
    m.matches_date_filters da db = true ↔
      (m.extract_dates ≠ [] ∧ ∃ d ∈ m.extract_dates,
        (∀ a ∈ da, a ≤ d) ∧ (∀ b ∈ db, d ≤ b)) := by
  cases da <;> cases db <;>
    rcases hd : m.extract_dates with _ | ⟨d0, ds⟩ <;>
      simp [Metadata.matches_date_filters, hd, List.any_eq_true]

/-- C9: the inline `key: value` fallback of `has_field` scans every line
of the raw content, including the frontmatter block's own lines; for a
frontmatter value of YAML kind `null` (which `yaml_value_contains` never
matches, as with mappings and tagged values), `has_field "status" "null"`
still returns true via the raw-text branch. -/
theorem C9_inline_scan_reaches_frontmatter_lines :
    yaml_value_contains YamlValue.nullV (str "null") = false ∧
    yaml_value_contains (YamlValue.mappingV []) (str "null") = false ∧
    yaml_value_contains (YamlValue.taggedV (str "t") YamlValue.nullV) (str "null") = false ∧
    lookupExtra fmC9.extra (str "status") = some YamlValue.nullV ∧
    structuredFieldMatch mC9 (str "status") (str "null") = false ∧
    (str "status: null") ∈ rustLines mC9.raw_content ∧
    inlineFieldMatch mC9 (str "status") (str "null") = true ∧
    mC9.has_field (str "status") (str "null") = true := by
  refine ⟨rfl, rfl, rfl, rfl, rfl, ?_, rfl, rfl⟩
  decide

/-- C10: field-name matching is case-sensitive in the structured branch
(exact `extra`-map lookup; the compiler preserves the trimmed field name's
case and lowercases only the pattern) but case-insensitive in the inline
branch: against frontmatter key `status`, the filter `Status:draft` fails
through the structured branch while `status:draft` succeeds. -/
theorem C10_field_name_case_sensitivity :
    parse_field_spec (str "Status:draft") = .ok (str "Status", str "draft") ∧
    parse_field_spec (str "status:DRAFT") = .ok (str "status", str "draft") ∧
    structuredFieldMatch mC10 (str "Status") (str "draft") = false ∧
    structuredFieldMatch mC10 (str "status") (str "draft") = true ∧
    inlineFieldMatch mC10 (str "Status") (str "draft") = true ∧
    mC10.has_field (str "status") (str "draft") = true :=
  ⟨rfl, rfl, rfl, rfl, rfl, rfl⟩

/-- C2: `should_include_file_by_content` is true iff every filter type
with a non-empty pattern list is satisfied by at least one of its patterns
(OR within a type, AND across types); a type with zero patterns imposes no
constraint. -/
theorem C2_filter_combination (m : Metadata) (f : CompiledFilters) :
    should_include_file_by_content m f = true ↔
      ((f.tag_patterns ≠ [] → ∃ p ∈ f.tag_patterns, m.has_tag p = true) ∧
       (f.title_patterns ≠ [] → ∃ p ∈ f.title_patterns, m.has_title p = true) ∧
       (f.author_patterns ≠ [] → ∃ p ∈ f.author_patterns, m.has_author p = true) ∧
       (f.field_patterns ≠ [] → ∃ fp ∈ f.field_patterns, m.has_field fp.1 fp.2 = true) ∧
       ((f.date_after.isSome = true ∨ f.date_before.isSome = true) →
         m.matches_date_filters f.date_after f.date_before = true)) := by
  unfold should_include_file_by_content
  split_ifs with h1 h2 h3 h4 h5 <;>
    simp_all [List.any_eq_true, List.isEmpty_iff, List.isEmpty_eq_false,
      Option.isSome_iff_exists, not_or]

/-- C4 counterexample: for a file whose frontmatter block fails YAML
deserialization, with verbose NOT requested (`false`), the extraction
still emits the stderr diagnostic (the source `eprintln!` is
unconditional), contradicting "when verbose is not requested, no
diagnostic is emitted"; the degradation to `none` does hold. -/
theorem C4_counterexample :
    (Metadata.from_content (fun _ => Except.error (str "err")) (str "---\nbad: [\n---") false).2
      = true ∧
    (Metadata.from_content (fun _ => Except.error (str "err")) (str "---\nbad: [\n---") false).1.frontmatter
      = none :=
  ⟨rfl, rfl⟩

/-- C4 (amended): for every input text whose frontmatter block fails YAML
deserialization, extraction returns `none` (the file degrades to no
structured metadata and remains a candidate, never aborting), and the
diagnostic is emitted unconditionally — regardless of the verbose flag. -/
theorem C4_amended_parse_failure_degrades
    (parseYaml : Str → Except Str Frontmatter) (content : Str) (v : Bool)
    (first : Str) (rest : List Str) (e : Str)
    (h1 : rustLines content = first :: rest)
    (h2 : trimStr first = str "---")
    (h3 : rest.takeWhile notDelimLine ≠ [])
    (h4 : parseYaml (joinNl (rest.takeWhile notDelimLine)) = .error e) :
    (Metadata.from_content parseYaml content v).1.frontmatter = none ∧
    (Metadata.from_content parseYaml content v).2 = true := by
  have h3' : ¬ ((rest.takeWhile notDelimLine).isEmpty = true) := by
    simpa [List.isEmpty_iff] using h3
  unfold Metadata.from_content extract_frontmatter
  simp only [h1]
  rw [if_pos h2, if_neg h3', h4]
  exact ⟨rfl, rfl⟩

/-- Witness for C4 (amended) at a concrete malformed file, verbose on. -/
theorem C4_amended_witness :
    (Metadata.from_content (fun _ => Except.error (str "e")) (str "---\nbad: [\n---") true).1.frontmatter
      = none ∧
    (Metadata.from_content (fun _ => Except.error (str "e")) (str "---\nbad: [\n---") true).2
      = true :=
  C4_amended_parse_failure_degrades (fun _ => Except.error (str "e"))
    (str "---\nbad: [\n---") true (str "---") [str "bad: [", str "---"] (str "e")
    (by decide) (by decide) (by decide) rfl

/-- Args with no filters of any kind. -/
def argsEmpty : Args := ⟨[], [], [], [], [], none, none, false⟩

/-- C7: if no filters of any kind are specified, `find_matching_files`
returns every enumerated candidate path, sorted, with no file content
read and no `Metadata` constructed (the trace holds no `readF` event). -/
theorem C7_no_filters_pure_listing (args : Args) (candidates : List Str)
    (readFile : Str → Option Str) (parseYaml : Str → Except Str Frontmatter)
    (htags : args.tags = []) (htitles : args.titles = [])
    (hauthors : args.authors = []) (hnames : args.names = [])
    (hfields : args.fields = []) (hda : args.date_after = none)
    (hdb : args.date_before = none) :
    ∃ out, find_matching_files candidates readFile parseYaml args
        = (.ok out, [Event.traverse]) ∧
      List.Sorted lexLeP out ∧ (∀ p, p ∈ out ↔ p ∈ candidates) := by
  have hnf : noFilters args = true := by
    simp [noFilters, htags, htitles, hauthors, hnames, hfields, hda, hdb]
  refine ⟨sortPaths candidates, ?_, ?_, ?_⟩
  · simp [find_matching_files, hnf]
  · exact List.sorted_insertionSort lexLeP candidates
  · intro p
    simp [sortPaths]

/-- Witness for C7 on two concrete unsorted candidates. -/
theorem C7_witness :
    ∃ out, find_matching_files [str "b.md", str "a.md"] (fun _ => none)
        (fun _ => Except.error ([] : Str)) argsEmpty
        = (.ok out, [Event.traverse]) ∧
      List.Sorted lexLeP out ∧ (∀ p, p ∈ out ↔ p ∈ [str "b.md", str "a.md"]) :=
  C7_no_filters_pure_listing argsEmpty [str "b.md", str "a.md"] (fun _ => none)
    (fun _ => Except.error ([] : Str)) rfl rfl rfl rfl rfl rfl rfl

/-- Args with only a filename filter (one compiled name pattern that
matches every filename). -/
def argsNameOnly : Args := ⟨[], [], [], [fun _ => true], [], none, none, false⟩

/-- With no content filters compiled (only name patterns, which are
checked earlier), `should_include_file_by_content` accepts every file. -/
theorem should_include_no_content_filters (m : Metadata) (names : List (Str → Bool)) :
    should_include_file_by_content m ⟨[], [], [], names, [], none, none⟩ = true := rfl

/-- C5 counterexample: only filename filters are specified and the single
candidate's path is identical in both runs, but the run in which the file
is readable includes it while the run in which reading fails drops it —
the verdict is not a pure function of the path string. -/
theorem C5_counterexample :
    (find_matching_files [str "a.md"] (fun _ => some (str "x"))
        (fun _ => Except.error ([] : Str)) argsNameOnly).1 = .ok [str "a.md"] ∧
    (find_matching_files [str "a.md"] (fun _ => none)
        (fun _ => Except.error ([] : Str)) argsNameOnly).1 = .ok [] :=
  ⟨rfl, rfl⟩

/-- C5 (amended): when only filename filters are specified, the verdict
for each candidate depends only on the path string and on whether the file
can be read at all: two runs over the same candidates whose files differ
arbitrarily in content (and in YAML parsing) but agree on readability
produce identical results; an unreadable file is dropped. -/
theorem C5_amended_name_only_filters (args : Args) (candidates : List Str)
    (rf1 rf2 : Str → Option Str) (py1 py2 : Str → Except Str Frontmatter)
    (htags : args.tags = []) (htitles : args.titles = [])
    (hauthors : args.authors = []) (hfields : args.fields = [])
    (hda : args.date_after = none) (hdb : args.date_before = none)
    (hread : ∀ p, (rf1 p).isSome = (rf2 p).isSome) :
    find_matching_files candidates rf1 py1 args
      = find_matching_files candidates rf2 py2 args := by
  have hfa : CompiledFilters.from_args args
      = .ok ⟨[], [], [], args.names, [], none, none⟩ := by
    simp [CompiledFilters.from_args, htags, htitles, hauthors, hfields, hda, hdb,
      parse_field_specs, parse_date_arg]
  unfold find_matching_files
  by_cases hnf : noFilters args = true
  · simp [hnf]
  · simp only [hnf, Bool.false_eq_true, if_false, hfa]
    have hmaps : ∀ (rf : Str → Option Str) (py : Str → Except Str Frontmatter)
        (p : Str), (match rf p with
          | none => none
          | some content =>
            if should_include_file_by_content
                (Metadata.from_content py content args.verbose).1
                (⟨[], [], [], args.names, [], none, none⟩ : CompiledFilters)
            then some p else none)
          = if (rf p).isSome then some p else none := by
      intro rf py p
      cases h : rf p with
      | none => simp [h]
      | some c => simp [h, should_include_no_content_filters]
    have hcongr : ∀ files : List Str,
        files.filterMap (fun p =>
          match rf1 p with
          | none => none
          | some content =>
            if should_include_file_by_content
                (Metadata.from_content py1 content args.verbose).1
                (⟨[], [], [], args.names, [], none, none⟩ : CompiledFilters)
            then some p else none)
        = files.filterMap (fun p =>
          match rf2 p with
          | none => none
          | some content =>
            if should_include_file_by_content
                (Metadata.from_content py2 content args.verbose).1
                (⟨[], [], [], args.names, [], none, none⟩ : CompiledFilters)
            then some p else none) := by
      intro files
      apply List.filterMap_congr
      intro p _
      rw [hmaps rf1 py1 p, hmaps rf2 py2 p, hread p]
    simp only [hcongr]

/-- Witness for C5 (amended): two runs with different file contents and
different YAML parsers, same readability, same result. -/
theorem C5_amended_witness :
    find_matching_files [str "a.md"] (fun _ => some (str "x"))
        (fun _ => Except.error ([] : Str)) argsNameOnly
      = find_matching_files [str "a.md"] (fun _ => some (str "y"))
        (fun _ => Except.ok ⟨none, none, none, []⟩) argsNameOnly :=
  C5_amended_name_only_filters argsNameOnly [str "a.md"]
    (fun _ => some (str "x")) (fun _ => some (str "y"))
    (fun _ => Except.error ([] : Str)) (fun _ => Except.ok ⟨none, none, none, []⟩)
    rfl rfl rfl rfl rfl rfl (fun _ => rfl)

/-- Every error produced by `parse_field_spec` is a field-format error. -/
theorem parse_field_spec_error_isField (s : Str) (e : FilterError)
    (h : parse_field_spec s = .error e) : e.isFieldError = true := by
  unfold parse_field_spec at h
  rcases hs : splitAtColon s with _ | ⟨f, p⟩ <;> rw [hs] at h
  · cases h; rfl
  · simp only [] at h
    split_ifs at h <;> cases h <;> rfl

/-- `parse_field_spec` fails exactly on the bad specs. -/
theorem parse_field_spec_error_iff (s : Str) :
    (∃ e, parse_field_spec s = .error e) ↔ badFieldSpec s = true := by
  unfold parse_field_spec badFieldSpec
  rcases hs : splitAtColon s with _ | ⟨f, p⟩
  · simp
  · simp only []
    split_ifs with h1 h2 h3 <;> simp_all

/-- `parse_field_specs` fails exactly when some spec in the list is bad,
and its error is always a field-format error. -/
theorem parse_field_specs_error_iff (l : List Str) :
    ((∃ e, parse_field_specs l = .error e ∧ e.isFieldError = true) ↔
      ∃ s ∈ l, badFieldSpec s = true) := by
  induction l with
  | nil => simp [parse_field_specs]
  | cons s rest ih =>
    unfold parse_field_specs
    rcases hs : parse_field_spec s with e | fp
    · simp only [hs]
      constructor
      · intro _
        exact ⟨s, by simp, (parse_field_spec_error_iff s).mp ⟨e, hs⟩⟩
      · intro _
        exact ⟨e, rfl, parse_field_spec_error_isField s e hs⟩
    · simp only [hs]
      have hgood : badFieldSpec s = false := by
        by_contra hb
        have := (parse_field_spec_error_iff s).mpr (by simpa using hb)
        rcases this with ⟨e, he⟩
        rw [hs] at he
        cases he
      rcases hr : parse_field_specs rest with e' | fps
      · simp only [Except.map]
        rw [hr] at ih
        constructor
        · intro he
          rcases (ih.mp (by simpa using he)) with ⟨t, ht, hbt⟩
          exact ⟨t, by simp [ht], hbt⟩
        · intro ⟨t, ht, hbt⟩
          rcases List.mem_cons.mp ht with h | h
          · subst h; rw [hgood] at hbt; cases hbt
          · exact (by simpa using ih.mpr ⟨t, h, hbt⟩)
      · simp only [Except.map]
        rw [hr] at ih
        constructor
        · intro ⟨e'', he'', _⟩
          cases he''
        · intro ⟨t, ht, hbt⟩
          rcases List.mem_cons.mp ht with h | h
          · subst h; rw [hgood] at hbt; cases hbt
          · rcases ih.mpr ⟨t, h, hbt⟩ with ⟨e'', he'', _⟩
            cases he''


/-- Every error of the whole field-spec loop is a field-format error. -/
theorem parse_field_specs_error_isField (l : List Str) :
    ∀ e : FilterError, parse_field_specs l = .error e → e.isFieldError = true := by
  induction l with
  | nil => intro e h; cases h
  | cons s rest ih =>
    intro e h
    unfold parse_field_specs at h
    rcases hs : parse_field_spec s with e' | fp <;> rw [hs] at h
    · simp only [] at h
      injection h with h2
      subst h2
      exact parse_field_spec_error_isField s e' hs
    · rcases hr : parse_field_specs rest with e'' | fps <;> rw [hr] at h
      · simp only [Except.map] at h
        injection h with h2
        subst h2
        exact ih e'' hr
      · simp only [Except.map] at h
        cases h

/-- An error of `parse_date_arg` names the (present) malformed date. -/
theorem parse_date_arg_error_shape (o : Option Str) (mk : Str → FilterError)
    (e : FilterError) (h : parse_date_arg o mk = .error e) :
    ∃ s, o = some s ∧ e = mk s := by
  unfold parse_date_arg at h
  rcases o with _ | s
  · cases h
  · simp only [] at h
    rcases hp : parseDate s with _ | d <;> rw [hp] at h
    · injection h with h2
      exact ⟨s, rfl, h2.symm⟩
    · cases h

/-- Args with the malformed field spec `:x` (empty field name). -/
def argsBadField : Args := ⟨[], [], [], [], [str ":x"], none, none, false⟩

/-- C6 counterexample: the malformed field spec `:x` does produce the
fatal configuration error, but the run's event trace shows the directory
traversal (`enumerate_files`) was already performed before filter
compilation — contradicting "any such fatal configuration error occurs
before any directory traversal or file I/O is performed". -/
theorem C6_counterexample :
    (find_matching_files [str "a.md"] (fun _ => some (str "x"))
        (fun _ => Except.error ([] : Str)) argsBadField).1
      = .error (FilterError.fieldNameEmpty (str ":x")) ∧
    Event.traverse ∈ (find_matching_files [str "a.md"] (fun _ => some (str "x"))
        (fun _ => Except.error ([] : Str)) argsBadField).2 :=
  ⟨rfl, by decide⟩

/-- C6 (amended): filter compilation fails with a field-format error —
distinguishing missing colon, both sides empty, empty field name and
empty pattern — exactly when some field spec lacks a colon or has a side
that trims to empty; such a fatal error is returned before any file
content is read (the trace holds no `readF` event), though the directory
enumeration has already happened by then. -/
theorem C6_amended_field_spec_validation (args : Args) (candidates : List Str)
    (rf : Str → Option Str) (py : Str → Except Str Frontmatter) :
    ((∃ e, CompiledFilters.from_args args = .error e ∧ e.isFieldError = true) ↔
      ∃ s ∈ args.fields, badFieldSpec s = true) ∧
    (∀ s, (parse_field_spec s = .error (.fieldNoColon s) ↔ splitAtColon s = none) ∧
      ∀ f p, splitAtColon s = some (f, p) →
        ((parse_field_spec s = .error (.fieldBothEmpty s) ↔
            trimStr f = [] ∧ trimStr p = []) ∧
         (parse_field_spec s = .error (.fieldNameEmpty s) ↔
            trimStr f = [] ∧ ¬ trimStr p = []) ∧
         (parse_field_spec s = .error (.fieldPatternEmpty s) ↔
            ¬ trimStr f = [] ∧ trimStr p = []))) ∧
    (∀ e, CompiledFilters.from_args args = .error e →
      find_matching_files candidates rf py args = (.error e, [Event.traverse])) := by
  refine ⟨?_, ?_, ?_⟩
  · unfold CompiledFilters.from_args
    rcases hf : parse_field_specs args.fields with e0 | fps
    · simp only []
      constructor
      · intro _
        exact (parse_field_specs_error_iff args.fields).mp
          ⟨e0, hf, parse_field_specs_error_isField args.fields e0 hf⟩
      · intro _
        exact ⟨e0, rfl, parse_field_specs_error_isField args.fields e0 hf⟩
    · simp only []
      constructor
      · intro ⟨e, he, hfe⟩
        exfalso
        rcases hda : parse_date_arg args.date_after FilterError.invalidDateAfter
            with e1 | oa <;> rw [hda] at he <;> simp only [] at he
        · injection he with h2
          subst h2
          rcases parse_date_arg_error_shape _ _ _ hda with ⟨ds, _, rfl⟩
          simp [FilterError.isFieldError] at hfe
        · rcases hdb : parse_date_arg args.date_before FilterError.invalidDateBefore
              with e2 | ob <;> rw [hdb] at he <;> simp only [] at he
          · injection he with h2
            subst h2
            rcases parse_date_arg_error_shape _ _ _ hdb with ⟨ds, _, rfl⟩
            simp [FilterError.isFieldError] at hfe
          · cases he
      · intro hbad
        exfalso
        rcases (parse_field_specs_error_iff args.fields).mpr hbad with ⟨e0, he0, _⟩
        rw [he0] at hf
        cases hf
  · intro s
    constructor
    · unfold parse_field_spec
      rcases hs : splitAtColon s with _ | ⟨f, p⟩
      · simp
      · simp only []
        split_ifs <;> simp [hs]
    · intro f p hs
      unfold parse_field_spec
      rw [hs]
      simp only []
      split_ifs with h1 h2 h3 <;> simp_all
  · intro e he
    have hnf : noFilters args = false := by
      cases hq : noFilters args
      · rfl
      · exfalso
        simp only [noFilters, Bool.and_eq_true, List.isEmpty_iff,
          Option.isNone_iff_eq_none] at hq
        have hdbe := hq.2
        have hdae := hq.1.2
        have hfe := hq.1.1.2
        simp [CompiledFilters.from_args, hfe, hdae, hdbe,
          parse_field_specs, parse_date_arg] at he
    simp [find_matching_files, hnf, he]

/-- Witness for C6 (amended): the bad spec `:x` aborts the run right
after enumeration, with no file read. -/
theorem C6_amended_witness :
    find_matching_files [str "a.md"] (fun _ => none)
        (fun _ => Except.error ([] : Str)) argsBadField
      = (.error (FilterError.fieldNameEmpty (str ":x")), [Event.traverse]) :=
  (C6_amended_field_spec_validation argsBadField [str "a.md"] (fun _ => none)
      (fun _ => Except.error ([] : Str))).2.2
    (FilterError.fieldNameEmpty (str ":x")) rfl

/-- Once the frontmatter block has been closed, the reader keeps taking a
prefix and stops only when the line budget is met (or the file ends). -/
theorem readLinesLoop_after_frontmatter (N : Nat) :
    ∀ (rest : List Str) (c : Nat), 1 ≤ c →
      ∃ k, readLinesLoop N rest c false true = some (rest.take k) ∧
        (k = rest.length ∨ N ≤ c + k) := by
  intro rest
  induction rest with
  | nil => intro c _; exact ⟨0, rfl, Or.inl rfl⟩
  | cons line rest ih =>
    intro c hc
    have hc' : ¬ c = 0 := by omega
    by_cases hN : N ≤ c + 1
    · refine ⟨1, ?_, Or.inr (by omega)⟩
      simp [readLinesLoop, hc', hN, List.take]
    · obtain ⟨k, hk, hor⟩ := ih (c + 1) (by omega)
      refine ⟨k + 1, ?_, ?_⟩
      · simp [readLinesLoop, hc', hN, hk, List.take]
      · rcases hor with h | h
        · exact Or.inl (by simp [h])
        · exact Or.inr (by omega)

/-- While inside the frontmatter block (no line of `mid` is a `---`
delimiter, `closing` is), the reader never breaks and never errors as long
as the ceiling is respected, and the whole block through the closing
delimiter ends up in the prefix kept. -/
theorem readLinesLoop_inside_frontmatter (N : Nat) :
    ∀ (mid : List Str) (closing : Str) (post : List Str) (c : Nat),
      1 ≤ c → (∀ l ∈ mid, trimStr l ≠ str "---") → trimStr closing = str "---" →
      c + mid.length ≤ MAX_FRONTMATTER_LINES →
      ∃ k, readLinesLoop N (mid ++ closing :: post) c true false
          = some ((mid ++ closing :: post).take k) ∧
        mid.length + 1 ≤ k ∧
        (k = (mid ++ closing :: post).length ∨ N ≤ c + k) := by
  intro mid
  induction mid with
  | nil =>
    intro closing post c hc _ hclose _
    have hc' : ¬ c = 0 := by omega
    by_cases hN : N ≤ c + 1
    · refine ⟨1, ?_, le_refl 1, Or.inr (by omega)⟩
      simp [readLinesLoop, hc', hclose, hN, List.take]
    · obtain ⟨k, hk, hor⟩ := readLinesLoop_after_frontmatter N post (c + 1) (by omega)
      refine ⟨k + 1, ?_, by simp, ?_⟩
      · simp [readLinesLoop, hc', hclose, hN, hk, List.take]
      · rcases hor with h | h
        · exact Or.inl (by simp [h])
        · exact Or.inr (by omega)
  | cons l mid ih =>
    intro closing post c hc hmid hclose hmax
    have hc' : ¬ c = 0 := by omega
    have hl : ¬ trimStr l = str "---" := hmid l (by simp)
    have hmax' : ¬ (c + 1 > MAX_FRONTMATTER_LINES) := by
      simp only [MAX_FRONTMATTER_LINES, List.length_cons] at hmax ⊢
      omega
    obtain ⟨k, hk, hge, hor⟩ := ih closing post (c + 1) (by omega)
      (fun x hx => hmid x (by simp [hx])) hclose
      (by simp only [List.length_cons] at hmax; omega)
    refine ⟨k + 1, ?_, by simp only [List.length_cons]; omega, ?_⟩
    · simp [readLinesLoop, hc', hl, hmax', hk, List.take]
    · rcases hor with h | h
      · refine Or.inl ?_
        simp only [List.cons_append, List.length_cons, h]
      · exact Or.inr (by omega)

/-- C1: bounded-mode reads never truncate a frontmatter block: for a file
whose first line trims to `---` and whose closing `---` line is line
`L = mid.length + 2` with `L` at most the 1000-line ceiling, a bounded
read with any budget `N` (even `N < L`) keeps every line of the block up
to and including the closing delimiter, and stops only once at least `N`
lines are consumed (or the file is exhausted). -/
theorem C1_bounded_read_never_truncates_frontmatter
    (openL closing : Str) (mid post : List Str) (N : Nat)
    (hopen : trimStr openL = str "---")
    (hmid : ∀ l ∈ mid, trimStr l ≠ str "---")
    (hclose : trimStr closing = str "---")
    (hL : mid.length + 2 ≤ 1000) :
    ∃ k, read_file_content (openL :: (mid ++ closing :: post)) N false
        = some ((openL :: (mid ++ closing :: post)).take k) ∧
      mid.length + 2 ≤ k ∧
      (k = (openL :: (mid ++ closing :: post)).length ∨ N ≤ k) := by
  obtain ⟨k, hk, hge, hor⟩ := readLinesLoop_inside_frontmatter N mid closing post 1
    (le_refl 1) hmid hclose (by simp only [MAX_FRONTMATTER_LINES]; omega)
  refine ⟨k + 1, ?_, by omega, ?_⟩
  · simp [read_file_content, readLinesLoop, hopen, MAX_FRONTMATTER_LINES, hk, List.take]
  · rcases hor with h | h
    · refine Or.inl ?_
      simp only [List.length_cons, h]
    · exact Or.inr (by omega)

/-- Witness for C1: a three-line frontmatter block survives a budget of
two lines intact. -/
theorem C1_witness :
    ∃ k, read_file_content
        [str "---", str "a: 1", str "---", str "x", str "y"] 2 false
        = some (([str "---", str "a: 1", str "---", str "x", str "y"]).take k) ∧
      3 ≤ k ∧ (k = 5 ∨ 2 ≤ k) := by
  have h := C1_bounded_read_never_truncates_frontmatter (str "---") (str "---")
    [str "a: 1"] [str "x", str "y"] 2 (by decide) (by decide) (by decide) (by norm_num)
  simpa using h
